import Mathlib

/-!
Shallow embedding of the ShareDB stateless presence module
(`lib/client/presence.js` style source, `src/unnamed/part_000`).

The module is a bundle of functions mixed into a client `Doc` object.  We
model the mutable state reachable from `this` by an explicit `Doc` structure
(document-level fields plus the `presence` sub-state) and every function of
the module as a pure state transformer.  Side effects that escape the state
(callback invocations, `emit`, `connection.sendPresence`, `fetch`, and
`process.nextTick`-scheduled work) are recorded as a list of `Eff` events;
`Eff.deferred = true` marks work scheduled via `process.nextTick`, i.e. work
that never runs on the caller's stack.

Payloads and operation bodies are abstract types `P` and `Op`; the document
type's presence capabilities are modelled as functions together with Boolean
flags recording whether the (optional) JS functions exist at all.
-/

namespace SDB

/-- Error kinds surfaced by the presence module: ShareDBError 4015
("Document has not been created"), 4027 ("type does not support presence"),
and opaque errors carried by ack envelopes. -/
inductive SDBError where
  | notCreated
  | unsupportedType
  | other (code : Nat)
deriving DecidableEq

/-- A submission continuation (JS callback) is modelled by an opaque id. -/
abbrev Cb := Nat

/-- An operation as the presence module sees it: `op = none` models a JS
`op.op == null`, i.e. a structural change (create/del) that presence cannot
be transformed across; `src` is the originating source id (absent models a
JS `undefined`); `time` is the application timestamp used by the op cache. -/
structure WireOp (Op : Type) where
  op : Option Op
  src : Option String
  time : Nat
deriving DecidableEq

/-- A presence envelope `{src, seq, v, p, r, processedAt}`.  `src = ""`
models a falsy JS `src`, i.e. an acknowledgment.  `processedAt = some t`
records that the entry has been fully reconciled at time `t`. -/
structure PresenceMsg (P : Type) where
  src : String
  seq : Nat
  v : Option Nat
  p : Option P
  r : Bool
  processedAt : Option Nat
deriving DecidableEq

/-- The document type's presence capabilities.  `hasCreate`/`hasTransform`
record whether the JS type object carries a `createPresence` /
`transformPresence` function at all (the code probes the fields); the
function fields give their behaviour when present.  `comparePresence` is
optional also in JS.  JS functions are untyped, so the transform takes and
returns nullable data and takes a nullable op. -/
structure DocType (P Op : Type) where
  hasCreate : Bool
  hasTransform : Bool
  createPresence : P → Option P
  transformPresence : Option P → Option Op → Bool → Option P
  comparePresence : Option (Option P → P → Bool)

/-- The `doc.presence` state object, as built by `_initializePresence`. -/
structure PresenceState (P Op : Type) where
  current : List (String × P)
  received : List (String × PresenceMsg P)
  receivedTimeout : Nat
  requestReply : Bool
  cachedOps : List (WireOp Op)
  cachedOpsTimeout : Nat
  inflightSeq : Nat
  pending : Option (List Cb)
  inflight : Option (List Cb)

/-- The document-level fields the presence module reads, plus `presence`.
`connSeq` is `this.connection.seq`, the transport's outgoing sequence
counter read at flush time. -/
structure Doc (P Op : Type) where
  type : Option (DocType P Op)
  version : Option Nat
  inflightOp : Option (WireOp Op)
  pendingOps : List (WireOp Op)
  subscribed : Bool
  hasWritePending : Bool
  connSeq : Nat
  presence : PresenceState P Op

/-- Observable events.  `callCb cb err` invokes a continuation, `error`
is `doc.emit('error', e)`, `presence` is the batched change notification
`doc.emit('presence', srcList, submitted)`, `nothingPending` is
`doc._emitNothingPending()`, `send` is `connection.sendPresence(doc, data,
requestReply)`, `fetch` is `doc.fetch()`, and `scheduleFlush` is the
`process.nextTick(this.flush.bind(this))` at the end of submitPresence. -/
inductive Event (P : Type) where
  | callCb (cb : Cb) (err : Option SDBError)
  | error (err : SDBError)
  | presence (srcList : List String) (submitted : Bool)
  | nothingPending
  | send (data : Option P) (requestReply : Bool)
  | fetch
  | scheduleFlush
deriving DecidableEq

/-- An effect: `deferred = true` means it was scheduled with
`process.nextTick` (so it never runs on the caller's stack). -/
structure Eff (P : Type) where
  deferred : Bool
  ev : Event P
deriving DecidableEq

/-- Result of a state transformer: new doc plus emitted effects. -/
structure StepResult (P Op : Type) where
  doc : Doc P Op
  effs : List (Eff P)

/-- Result of a transformer that also returns a changed flag (the JS
functions returning `true` iff presence changed). -/
structure SetR (P Op : Type) where
  changed : Bool
  doc : Doc P Op
  effs : List (Eff P)

variable {P Op : Type} [DecidableEq P]

/-- Lookup in a JS-object-as-association-list: first entry with the key. -/
def lookupA (l : List (String × α)) (s : String) : Option α :=
  (l.find? (fun kv => kv.1 == s)).map (fun kv => kv.2)

/-- `delete obj[s]` on a JS object modelled as an association list. -/
def eraseA (l : List (String × α)) (s : String) : List (String × α) :=
  l.filter (fun kv => kv.1 != s)

/-- `obj[s] = a` on a JS object: replace in place if the key exists,
otherwise append (JS objects keep insertion order for string keys). -/
def insertA : List (String × α) → String → α → List (String × α)
  | [], s, a => [(s, a)]
  | kv :: l, s, a => if kv.1 == s then (s, a) :: l else kv :: insertA l s a

/-- JS `n < v` where `v` may be `null` (`n < null` is `n < 0`, false for
natural `n`). -/
def vlt (n : Nat) (v : Option Nat) : Bool :=
  match v with
  | some m => decide (n < m)
  | none => false

/-- `_initializePresence`: the initial value for `doc.presence`. -/
def initializePresence (P Op : Type) : PresenceState P Op :=
  { current := []
    received := []
    receivedTimeout := 60000
    requestReply := true
    cachedOps := []
    cachedOpsTimeout := 60000
    inflightSeq := 0
    pending := none
    inflight := none }

/-- `_emitPresence(srcList, submitted)`: a deferred presence event, only
when the list is non-empty. -/
def emitPresenceE (srcList : List String) (submitted : Bool) : List (Eff P) :=
  if srcList.isEmpty then [] else [⟨true, Event.presence srcList submitted⟩]

/-- `_setPresence(src, data, emit)`: clearing removes the key; setting
compares with identity (modelled as decidable equality) and then the type's
optional `comparePresence`, and updates the map only if different.  Returns
whether presence changed for `src`. -/
def setPresence (doc : Doc P Op) (src : String) (data : Option P) (emit : Bool) :
    SetR P Op :=
  match data with
  | none =>
    match lookupA doc.presence.current src with
    | none => ⟨false, doc, []⟩
    | some _ =>
      ⟨true, { doc with presence.current := eraseA doc.presence.current src },
        if emit then emitPresenceE [src] true else []⟩
  | some d =>
    let old := lookupA doc.presence.current src
    let isEq : Bool := (old == some d) ||
      (match doc.type.bind (fun t => t.comparePresence) with
       | some f => f old d
       | none => false)
    if isEq then ⟨false, doc, []⟩
    else
      ⟨true, { doc with presence.current := insertA doc.presence.current src d },
        if emit then emitPresenceE [src] true else []⟩

/-- The deferred error delivery used by `submitPresence`'s precondition
failures: call the callback with the error if present, else emit it. -/
def errEvent (callback : Option Cb) (e : SDBError) : Event P :=
  match callback with
  | some c => Event.callCb c (some e)
  | none => Event.error e

/-- The tail of `submitPresence` after validation/normalization: install
the (possibly null) data as local presence, queue or resolve the callback,
and schedule a flush on the next tick. -/
def submitCore (doc : Doc P Op) (data : Option P) (callback : Option Cb) :
    StepResult P Op :=
  let r := setPresence doc "" data true
  let doc1 := r.doc
  if r.changed || doc1.presence.pending.isSome || doc1.presence.inflight.isSome then
    let pnd := doc1.presence.pending.getD []
    let pnd := match callback with
      | some c => pnd ++ [c]
      | none => pnd
    ⟨{ doc1 with presence.pending := some pnd },
      r.effs ++ [⟨true, Event.scheduleFlush⟩]⟩
  else
    match callback with
    | some c => ⟨doc1, r.effs ++ [⟨true, Event.callCb c none⟩, ⟨true, Event.scheduleFlush⟩]⟩
    | none => ⟨doc1, r.effs ++ [⟨true, Event.scheduleFlush⟩]⟩

/-- `submitPresence(data, callback)`: validation failures resolve on the
next tick (never synchronously); otherwise the payload is normalized by
`type.createPresence` and handed to the queueing tail. -/
def submitPresence (doc : Doc P Op) (data : Option P) (callback : Option Cb) :
    StepResult P Op :=
  match data with
  | some d =>
    match doc.type with
    | none => ⟨doc, [⟨true, errEvent callback SDBError.notCreated⟩]⟩
    | some t =>
      if !t.hasCreate || !t.hasTransform then
        ⟨doc, [⟨true, errEvent callback SDBError.unsupportedType⟩]⟩
      else
        submitCore doc (t.createPresence d) callback
  | none => submitCore doc none callback

/-- `flush()`: when subscribed, nothing inflight, something pending and no
document write pending, promote `pending` to `inflight`, stamp it with the
connection's sequence counter, send the local presence with the
`requestReply` flag, and clear `requestReply`. -/
def flush (doc : Doc P Op) : StepResult P Op :=
  if doc.subscribed && doc.presence.inflight.isNone && doc.presence.pending.isSome &&
      !doc.hasWritePending then
    let p := doc.presence
    ⟨{ doc with presence := { p with
        inflight := p.pending
        inflightSeq := doc.connSeq
        pending := none
        requestReply := false } },
      [⟨false, Event.send (lookupA p.current "") p.requestReply⟩]⟩
  else ⟨doc, []⟩

/-- Store `{e with processedAt := some now}` back into `received[src]`
(the JS code mutates the stored envelope in place). -/
def markProcessed (doc : Doc P Op) (src : String) (e : PresenceMsg P) (now : Nat) :
    Doc P Op :=
  { doc with presence.received :=
      insertA doc.presence.received src { e with processedAt := some now } }

/-- The repeated reject branch of `_processReceivedPresence`: mark the
entry processed and clear the presence for `src`. -/
def rejectClear (doc : Doc P Op) (src : String) (e : PresenceMsg P) (emit : Bool)
    (now : Nat) : SetR P Op :=
  setPresence (markProcessed doc src e now) src none emit

/-- Whether the document's type supports presence: the type exists and has
both `createPresence` and `transformPresence`. -/
def hasPresenceType (doc : Doc P Op) : Bool :=
  match doc.type with
  | some t => t.hasCreate && t.hasTransform
  | none => false

/-- The JS `var startIndex = this.presence.cachedOps.length - (this.version -
presence.v)`: integer arithmetic, where a `null` entry version coerces
to 0. -/
def receivedStartIndex (doc : Doc P Op) (e : PresenceMsg P) (V : Nat) : Int :=
  (doc.presence.cachedOps.length : Int) - ((V : Int) - ((e.v.getD 0 : Nat) : Int))

/-- The slice of cached operations bridging the envelope's version to the
local version (`cachedOps.slice(startIndex)`; `Int.toNat` is only reached
when `startIndex` is non-negative). -/
def receivedWindow (doc : Doc P Op) (e : PresenceMsg P) (V : Nat) : List (WireOp Op) :=
  doc.presence.cachedOps.drop (receivedStartIndex doc e V).toNat

/-- The payload computed by the success path of `_processReceivedPresence`:
normalize through `createPresence`, then fold through the cached-op window
(ownership flag `presence.src === op.src`), then the inflight op and each
pending op (flag `false`). -/
def receivedTransformResult (doc : Doc P Op) (e : PresenceMsg P) (t : DocType P Op)
    (pp : P) (V : Nat) : Option P :=
  let data1 := (receivedWindow doc e V).foldl
    (fun d o => t.transformPresence d o.op (decide (o.src = some e.src)))
    (t.createPresence pp)
  let data2 := match doc.inflightOp with
    | some o => t.transformPresence data1 o.op false
    | none => data1
  doc.pendingOps.foldl (fun d o => t.transformPresence d o.op false) data2

/-- The reject-or-transform cascade of `_processReceivedPresence`, reached
once the envelope is unprocessed and the local version `V` has caught up. -/
def reconcileReceived (doc : Doc P Op) (src : String) (e : PresenceMsg P) (emit : Bool)
    (now : Nat) (V : Nat) : SetR P Op :=
  match e.p with
  | none => rejectClear doc src e emit now
  | some pp =>
    match doc.type with
    | none => rejectClear doc src e emit now
    | some t =>
      if !t.hasCreate || !t.hasTransform then rejectClear doc src e emit now else
      if (match doc.inflightOp with | some o => o.op.isNone | none => false) then
        rejectClear doc src e emit now else
      if doc.pendingOps.any (fun o => o.op.isNone) then
        rejectClear doc src e emit now else
      if receivedStartIndex doc e V < 0 then rejectClear doc src e emit now else
      if (receivedWindow doc e V).any (fun o => o.op.isNone) then
        rejectClear doc src e emit now else
      setPresence (markProcessed doc src e now) src
        (receivedTransformResult doc e t pp V) emit

/-- `_processReceivedPresence(src, emit)` at time `now`: per-source
reconciliation of a received envelope, following the source's guard
cascade literally. -/
def processReceivedPresence (doc : Doc P Op) (src : String) (emit : Bool) (now : Nat) :
    SetR P Op :=
  if src = "" then ⟨false, doc, []⟩ else
  match lookupA doc.presence.received src with
  | none => ⟨false, doc, []⟩
  | some e =>
    match e.processedAt with
    | some t =>
      if decide (t + doc.presence.receivedTimeout ≤ now) then
        ⟨false, { doc with presence.received := eraseA doc.presence.received src }, []⟩
      else ⟨false, doc, []⟩
    | none =>
      match doc.version with
      | none => ⟨false, doc, []⟩
      | some V =>
        if vlt V e.v then ⟨false, doc, []⟩ else
        reconcileReceived doc src e emit now V

/-- One step of `_processAllReceivedPresence`'s loop body. -/
def processFoldStep (now : Nat) (acc : Doc P Op × List String × List (Eff P))
    (src : String) : Doc P Op × List String × List (Eff P) :=
  let r := processReceivedPresence acc.1 src false now
  (r.doc, (if r.changed then acc.2.1 ++ [src] else acc.2.1), acc.2.2 ++ r.effs)

/-- `_processAllReceivedPresence()`: reconcile every source present in
`received` at call time and emit one batched change notification for the
sources that changed (the per-source calls pass a falsy `emit`). -/
def processAllReceivedPresence (doc : Doc P Op) (now : Nat) : StepResult P Op :=
  let srcList := doc.presence.received.map (fun kv => kv.1)
  let res := srcList.foldl (processFoldStep now) (doc, [], [])
  ⟨res.1, res.2.2 ++ emitPresenceE res.2.1 true⟩

/-- Look up the type's transform function; the default for an absent type
is never reached by the real call sites (they run only on typed docs). -/
def docTransform (doc : Doc P Op) : Option P → Option Op → Bool → Option P :=
  match doc.type with
  | some t => t.transformPresence
  | none => fun _ _ _ => none

/-- `_transformPresence(src, op)`: transform one source's current presence
through an applied operation; a structural change (null op) clears it.
The ownership flag is `src === (op.src || '')`. -/
def transformPresenceOne (doc : Doc P Op) (src : String) (op : WireOp Op) : SetR P Op :=
  let cur := lookupA doc.presence.current src
  let data := match op.op with
    | some _ => docTransform doc cur op.op (decide (src = op.src.getD ""))
    | none => none
  setPresence doc src data false

/-- One step of `_transformAllPresence`'s loop body. -/
def transformFoldStep (op : WireOp Op) (acc : Doc P Op × List String) (src : String) :
    Doc P Op × List String :=
  let r := transformPresenceOne acc.1 src op
  (r.doc, if r.changed then acc.2 ++ [src] else acc.2)

/-- The per-source value `_transformPresence` computes before handing it to
the set-presence primitive: transform through an edit op (ownership flag
`src === (op.src || '')`), clear on a structural change. -/
def tfVal (t : DocType P Op) (op : WireOp Op) (src : String) (cur : Option P) :
    Option P :=
  match op.op with
  | some _ => t.transformPresence cur op.op (decide (src = op.src.getD ""))
  | none => none

/-- Whether the set-presence primitive reports a change for that value,
for a type with no compare-presence capability. -/
def tfChanged (t : DocType P Op) (op : WireOp Op) (src : String) (cur : Option P) :
    Bool :=
  match tfVal t op src cur with
  | none => cur.isSome
  | some d => !(cur == some d)

/-- `_transformAllPresence(op)`: transform every source present in
`current` at call time (the iteration does not skip the local source `""`)
and emit one batched change notification for the sources that changed. -/
def transformAllPresence (doc : Doc P Op) (op : WireOp Op) : StepResult P Op :=
  let srcList := doc.presence.current.map (fun kv => kv.1)
  let res := srcList.foldl (transformFoldStep op) (doc, [])
  ⟨res.1, emitPresenceE res.2 false⟩

/-- One step of the presence-clearing loops in `pause` and
`_hardRollbackPresence`. -/
def clearFoldStep (acc : Doc P Op × List String) (src : String) :
    Doc P Op × List String :=
  let r := setPresence acc.1 src none false
  (r.doc, if r.changed then acc.2 ++ [src] else acc.2)

/-- `pause()`: merge any inflight batch to the front of `pending` (or
create an empty pending batch if local presence is set and nothing is
queued), drop all received entries, force `requestReply`, and clear every
non-local source's presence with one batched notification. -/
def pause (doc : Doc P Op) : StepResult P Op :=
  let p := doc.presence
  let doc1 :=
    if p.inflight.isSome then
      { doc with presence := { p with
          pending := some ((p.inflight.getD []) ++ (p.pending.getD []))
          inflight := none
          inflightSeq := 0 } }
    else if p.pending.isNone && (lookupA p.current "").isSome then
      { doc with presence.pending := some [] }
    else doc
  let doc2 := { doc1 with
    presence.received := []
    presence.requestReply := true }
  let srcList := doc2.presence.current.map (fun kv => kv.1)
  let res := srcList.foldl
    (fun (acc : Doc P Op × List String) src =>
      if src ≠ "" then clearFoldStep acc src else acc)
    (doc2, [])
  ⟨res.1, emitPresenceE res.2 false⟩

/-- `_cacheOp(op)` at time `now`: drop the longest front run of entries
older than `now - cachedOpsTimeout` (the source's loop breaks at the first
fresh entry), then append the new op. -/
def cacheOp (doc : Doc P Op) (op : WireOp Op) (now : Nat) : Doc P Op :=
  let oldOpTime := now - doc.presence.cachedOpsTimeout
  let kept := doc.presence.cachedOps.dropWhile (fun c => decide (c.time < oldOpTime))
  { doc with presence.cachedOps := kept ++ [op] }

/-- `destroy()`: clear `received` and `cachedOps`, leaving `current` and
the submission queues intact. -/
def destroy (doc : Doc P Op) : Doc P Op :=
  { doc with
    presence.received := []
    presence.cachedOps := [] }

/-- `_hardRollbackPresence()`: collect the inflight batch (if any) then
the pending batch (if any), reset all queue/cache/received state, force
`requestReply`, clear every source's current presence (the loop does not
skip `""`), and return the collected batches without invoking them. -/
def hardRollbackPresence (doc : Doc P Op) : List (List Cb) × StepResult P Op :=
  let pendingPresence := doc.presence.inflight.toList ++ doc.presence.pending.toList
  let p := doc.presence
  let doc1 := { doc with presence := { p with
      inflight := none
      inflightSeq := 0
      pending := none
      cachedOps := []
      received := []
      requestReply := true } }
  let srcList := doc1.presence.current.map (fun kv => kv.1)
  let res := srcList.foldl clearFoldStep (doc1, [])
  (pendingPresence, ⟨res.1, emitPresenceE res.2 false⟩)

/-- Modelled from the spec: the owning document's `_callEach(callbacks,
err)` helper is not part of this source file; per the spec's ack-handling
description it invokes each inflight continuation with the carried error
and reports whether any continuation was called. -/
def callEachEffs (callbacks : List Cb) (err : Option SDBError) : List (Eff P) :=
  callbacks.map (fun c => ⟨false, Event.callCb c err⟩)

/-- The tail of `_handlePresence` for an envelope that passed the ordering
check: store it into `received[src]`, then either clear immediately (null
version, envelope marked processed as stored), request a fetch (local
version missing or behind), or reconcile now. -/
def acceptPresence (doc1 : Doc P Op) (pm : PresenceMsg P) (now : Nat) :
    StepResult P Op :=
  match pm.v with
  | none =>
    let pr := { pm with processedAt := some now }
    let doc2 := { doc1 with
      presence.received := insertA doc1.presence.received pm.src pr }
    let r := setPresence doc2 pm.src none true
    ⟨r.doc, r.effs⟩
  | some pv =>
    let doc2 := { doc1 with
      presence.received := insertA doc1.presence.received pm.src pm }
    match doc2.version with
    | none => ⟨doc2, [⟨false, Event.fetch⟩]⟩
    | some V =>
      if decide (V < pv) then ⟨doc2, [⟨false, Event.fetch⟩]⟩
      else
        let r := processReceivedPresence doc2 pm.src true now
        ⟨r.doc, r.effs⟩

/-- `_handlePresence(err, presence)` at time `now`: ack handling for
`src = ""` (sequence-matched acks clear the inflight batch, invoke its
continuations, re-attempt a flush and emit a nothing-pending notification);
remote envelopes are ordered/deduped, stored, and either cleared (null
version), deferred behind a fetch (local version behind), or reconciled. -/
def handlePresence (doc : Doc P Op) (err : Option SDBError) (presence : PresenceMsg P)
    (now : Nat) : StepResult P Op :=
  if !doc.subscribed then ⟨doc, []⟩ else
  if presence.src = "" then
    if doc.presence.inflightSeq = presence.seq then
      let callbacks := doc.presence.inflight
      let doc1 := { doc with
        presence.inflight := none
        presence.inflightSeq := 0 }
      let callEffs : List (Eff P) := callEachEffs (callbacks.getD []) err
      let called : Bool := !(callbacks.getD []).isEmpty
      let errEffs : List (Eff P) := match err with
        | some e => if called then [] else [⟨false, Event.error e⟩]
        | none => []
      let fr := flush doc1
      ⟨fr.doc, callEffs ++ errEffs ++ fr.effs ++ [⟨false, Event.nothingPending⟩]⟩
    else ⟨doc, []⟩
  else
    match err with
    | some e => ⟨doc, [⟨false, Event.error e⟩]⟩
    | none =>
      let step1 : Doc P Op × List (Eff P) :=
        if presence.r && doc.presence.pending.isNone then
          let d := { doc with presence.pending := some ([] : List Cb) }
          let fr := flush d
          (fr.doc, fr.effs)
        else (doc, [])
      let doc1 := step1.1
      let effs1 := step1.2
      if (match lookupA doc1.presence.received presence.src with
          | some old =>
            decide (presence.seq < old.seq) ||
              (decide (old.seq = presence.seq) && presence.v.isSome)
          | none => false) then ⟨doc1, effs1⟩
      else
        let r := acceptPresence doc1 presence now
        ⟨r.doc, effs1 ++ r.effs⟩

/-!  Concrete fixtures.  Payloads and operation bodies are naturals; the
sample type normalizes a payload by adding one and transforms a payload by
adding the op body plus ten more for owned operations.  They are used to
evaluate the model at explicit inputs. -/

/-- A concrete document type supporting presence. -/
def sampleType : DocType Nat Nat :=
  { hasCreate := true
    hasTransform := true
    createPresence := fun p => some (p + 1)
    transformPresence := fun d o own =>
      match d with
      | some x => some (x + o.getD 0 + (if own then 10 else 0))
      | none => none
    comparePresence := none }

/-- A concrete subscribed document with the sample type, version 0 and a
fresh presence state. -/
def baseDoc : Doc Nat Nat :=
  { type := some sampleType
    version := some 0
    inflightOp := none
    pendingOps := []
    subscribed := true
    hasWritePending := false
    connSeq := 1
    presence := initializePresence Nat Nat }

/-- A concrete remote presence envelope from source `"B"`. -/
def sampleMsg : PresenceMsg Nat :=
  { src := "B", seq := 1, v := some 0, p := some 5, r := false, processedAt := none }

/-- An entry whose version is ahead of the local document version. -/
def c1msgA : PresenceMsg Nat := { sampleMsg with v := some 5 }

/-- A document whose version (3) is behind the received entry (5). -/
def c1docA : Doc Nat Nat :=
  { baseDoc with
    version := some 3
    presence.received := [("B", c1msgA)] }

/-- A withdrawal entry (null payload) at the local version. -/
def c1msgB : PresenceMsg Nat := { sampleMsg with v := some 1, p := none }

/-- A document at version 1 holding the withdrawal entry. -/
def c1docB : Doc Nat Nat :=
  { baseDoc with
    version := some 1
    presence.received := [("B", c1msgB)]
    presence.current := [("B", 42)] }

/-- A document whose single-op cache window holds a structural (null-op)
cached operation. -/
def c9doc : Doc Nat Nat :=
  { baseDoc with
    version := some 1
    presence.received := [("B", sampleMsg)]
    presence.current := [("B", 42)]
    presence.cachedOps := [⟨none, some "B", 0⟩] }

/-- The received entry reconciled by the transform path: version 1 against
local version 2. -/
def c2msg : PresenceMsg Nat := { sampleMsg with v := some 1 }

/-- A document where every reject guard passes: two cached ops (one in the
window), an inflight op and one pending op, all with non-null bodies. -/
def c2doc : Doc Nat Nat :=
  { baseDoc with
    version := some 2
    presence.received := [("B", c2msg)]
    presence.cachedOps := [⟨some 100, some "C", 0⟩, ⟨some 7, some "B", 1⟩]
    inflightOp := some ⟨some 3, none, 2⟩
    pendingOps := [⟨some 4, none, 3⟩] }

/-- A document already holding a received entry with sequence 5 from
source `"B"`. -/
def c3doc : Doc Nat Nat :=
  { baseDoc with presence.received := [("B", { sampleMsg with seq := 5 })] }

/-- An envelope older (sequence 3) than the stored entry. -/
def c3msgLow : PresenceMsg Nat := { sampleMsg with seq := 3 }

/-- An equal-sequence envelope with a null version. -/
def c3msgNull : PresenceMsg Nat := { sampleMsg with seq := 5, v := none }

/-- A document whose only current presence is the local entry. -/
def c6doc : Doc Nat Nat := { baseDoc with presence.current := [("", 5)] }

/-- A local edit operation (no source recorded yet). -/
def c6op : WireOp Nat := ⟨some 1, none, 0⟩

/-- A document with a local and a remote presence entry. -/
def c6docW : Doc Nat Nat :=
  { baseDoc with presence.current := [("", 5), ("B", 7)] }

/-- An applied operation originating from source `"B"`. -/
def c6opW : WireOp Nat := ⟨some 1, some "B", 0⟩

/-- An operation whose timestamp (0) is stale relative to insertion time
100000 and the default 60000 timeout. -/
def c7op : WireOp Nat := ⟨some 1, none, 0⟩

/-- A document whose op cache is NOT sorted by time: a fresh entry in
front of a stale one. -/
def c7doc2 : Doc Nat Nat :=
  { baseDoc with presence.cachedOps := [⟨some 1, none, 100000⟩, ⟨some 2, none, 0⟩] }

/-- A fresh operation inserted at time 100000. -/
def c7op2 : WireOp Nat := ⟨some 3, none, 100000⟩

/-- A document with a time-sorted op cache of fresh entries. -/
def c7docW : Doc Nat Nat :=
  { baseDoc with presence.cachedOps := [⟨some 1, none, 50000⟩, ⟨some 2, none, 90000⟩] }

/-- The invariant that the inflight sequence number is zero exactly when
no submission batch is inflight. -/
def seqInv (p : PresenceState P Op) : Prop :=
  p.inflightSeq = 0 ↔ p.inflight = none

/-- A base document with a pending submission batch, ready to flush. -/
def c8doc : Doc Nat Nat :=
  { baseDoc with presence.pending := some [4] }

/-! ## Lemmas about the association-list primitives -/

theorem lookupA_nil (s : String) : lookupA ([] : List (String × α)) s = none := rfl

theorem lookupA_cons (kv : String × α) (l : List (String × α)) (s : String) :
    lookupA (kv :: l) s = if kv.1 = s then some kv.2 else lookupA l s := by
  by_cases h : kv.1 = s
  · rw [lookupA, List.find?_cons_of_pos _ (by simp [h])]
    simp [h]
  · rw [lookupA, List.find?_cons_of_neg _ (by simp [h])]
    simp [h, lookupA]

theorem lookupA_insertA (l : List (String × α)) (s s' : String) (a : α) :
    lookupA (insertA l s a) s' = if s' = s then some a else lookupA l s' := by
  induction l with
  | nil =>
    by_cases h : s' = s <;> simp [insertA, lookupA_cons, h] <;> simp [Ne.symm h]
  | cons kv l ih =>
    by_cases hk : kv.1 = s
    · simp only [insertA, hk, beq_self_eq_true, if_true]
      by_cases h : s' = s
      · simp [lookupA_cons, h]
      · simp [lookupA_cons, h, Ne.symm h, hk]
    · simp only [insertA, beq_eq_false_iff_ne.mpr hk, Bool.false_eq_true, if_false]
      by_cases h : kv.1 = s'
      · have hss : ¬ s' = s := fun he => hk (he ▸ h)
        simp [lookupA_cons, h, hss]
      · simp [lookupA_cons, h, ih]

theorem lookupA_eraseA (l : List (String × α)) (s s' : String) :
    lookupA (eraseA l s) s' = if s' = s then none else lookupA l s' := by
  induction l with
  | nil => by_cases h : s' = s <;> simp [eraseA, lookupA, h]
  | cons kv l ih =>
    rw [eraseA] at ih ⊢
    rw [List.filter_cons]
    by_cases hk : kv.1 = s
    · rw [if_neg (by simp [hk])]
      rw [ih, lookupA_cons]
      by_cases h : s' = s
      · simp [h]
      · have hks : ¬ kv.1 = s' := by rw [hk]; exact fun he => h he.symm
        simp [h, hks]
    · rw [if_pos (by simp [hk])]
      rw [lookupA_cons, lookupA_cons, ih]
      by_cases h : s' = s
      · have hks : ¬ kv.1 = s' := by rw [h]; exact hk
        simp [h, hks, hk]
      · by_cases hks : kv.1 = s' <;> simp [h, hks]

theorem eraseA_of_lookupA_none (l : List (String × α)) (s : String)
    (h : lookupA l s = none) : eraseA l s = l := by
  induction l with
  | nil => rfl
  | cons kv l ih =>
    rw [lookupA_cons] at h
    by_cases hk : kv.1 = s
    · simp [hk] at h
    · have hne : (kv.1 != s) = true := by simp [hk]
      simp only [eraseA, List.filter_cons, hne, if_true]
      have := ih (by simpa [hk] using h)
      rw [eraseA] at this
      rw [this]

/-! ## Shape lemmas: which state fields each transformer can touch -/

theorem setPresence_none_doc (doc : Doc P Op) (s : String) (emit : Bool) :
    (setPresence doc s none emit).doc =
      { doc with presence.current := eraseA doc.presence.current s } := by
  unfold setPresence
  cases h : lookupA doc.presence.current s with
  | none =>
    rw [eraseA_of_lookupA_none _ _ h]
  | some v => rfl

theorem setPresence_shape (doc : Doc P Op) (s : String) (v : Option P) (emit : Bool) :
    ∃ cur, (setPresence doc s v emit).doc = { doc with presence.current := cur } := by
  unfold setPresence
  cases v with
  | none =>
    cases h : lookupA doc.presence.current s
    · exact ⟨doc.presence.current, rfl⟩
    · exact ⟨_, rfl⟩
  | some d =>
    dsimp only
    split
    · exact ⟨doc.presence.current, rfl⟩
    · exact ⟨_, rfl⟩

theorem setPresence_received (doc : Doc P Op) (s : String) (v : Option P) (emit : Bool) :
    (setPresence doc s v emit).doc.presence.received = doc.presence.received := by
  obtain ⟨c, hc⟩ := setPresence_shape doc s v emit
  rw [hc]

theorem setPresence_inflight (doc : Doc P Op) (s : String) (v : Option P) (emit : Bool) :
    (setPresence doc s v emit).doc.presence.inflight = doc.presence.inflight := by
  obtain ⟨c, hc⟩ := setPresence_shape doc s v emit
  rw [hc]

theorem setPresence_inflightSeq (doc : Doc P Op) (s : String) (v : Option P) (emit : Bool) :
    (setPresence doc s v emit).doc.presence.inflightSeq = doc.presence.inflightSeq := by
  obtain ⟨c, hc⟩ := setPresence_shape doc s v emit
  rw [hc]

theorem setPresence_pending (doc : Doc P Op) (s : String) (v : Option P) (emit : Bool) :
    (setPresence doc s v emit).doc.presence.pending = doc.presence.pending := by
  obtain ⟨c, hc⟩ := setPresence_shape doc s v emit
  rw [hc]

theorem setPresence_lookup_self_none (doc : Doc P Op) (s : String) (emit : Bool) :
    lookupA (setPresence doc s none emit).doc.presence.current s = none := by
  rw [setPresence_none_doc]
  show lookupA (eraseA doc.presence.current s) s = none
  rw [lookupA_eraseA]
  simp

theorem processReceived_shape (doc : Doc P Op) (src : String) (emit : Bool) (now : Nat) :
    ∃ cur rcv, (processReceivedPresence doc src emit now).doc =
      { doc with presence.current := cur, presence.received := rcv } := by
  have hsm : ∀ (e : PresenceMsg P) (v : Option P), ∃ cur rcv,
      (setPresence (markProcessed doc src e now) src v emit).doc =
        { doc with presence.current := cur, presence.received := rcv } := by
    intro e v
    obtain ⟨c, hc⟩ := setPresence_shape (markProcessed doc src e now) src v emit
    exact ⟨c, _, by rw [hc]; rfl⟩
  unfold processReceivedPresence reconcileReceived rejectClear
  dsimp only
  repeat' split
  all_goals first
    | exact ⟨doc.presence.current, doc.presence.received, rfl⟩
    | exact ⟨doc.presence.current, _, rfl⟩
    | apply hsm

theorem flush_doc (doc : Doc P Op) :
    (flush doc).doc = doc ∨
      (flush doc).doc = { doc with presence := { doc.presence with
        inflight := doc.presence.pending
        inflightSeq := doc.connSeq
        pending := none
        requestReply := false } } := by
  unfold flush
  split
  · right; rfl
  · left; rfl

theorem flush_received (doc : Doc P Op) :
    (flush doc).doc.presence.received = doc.presence.received := by
  rcases flush_doc doc with h | h <;> rw [h]

theorem flush_current (doc : Doc P Op) :
    (flush doc).doc.presence.current = doc.presence.current := by
  rcases flush_doc doc with h | h <;> rw [h]

/-! ## Reduction of `_processReceivedPresence` past its defer guards -/

theorem processReceived_eq_reconcile (doc : Doc P Op) (src : String) (e : PresenceMsg P)
    (emit : Bool) (now : Nat) (V : Nat)
    (hsrc : ¬ src = "") (hrec : lookupA doc.presence.received src = some e)
    (hproc : e.processedAt = none) (hver : doc.version = some V)
    (hvlt : vlt V e.v = false) :
    processReceivedPresence doc src emit now = reconcileReceived doc src e emit now V := by
  unfold processReceivedPresence
  rw [if_neg hsrc, hrec]
  dsimp only
  rw [hproc]
  dsimp only
  rw [hver]
  dsimp only
  rw [hvlt]
  simp only [Bool.false_eq_true, if_false]

theorem rejectClear_received_lookup (doc : Doc P Op) (src : String) (e : PresenceMsg P)
    (v : Option P) (emit : Bool) (now : Nat) :
    lookupA (setPresence (markProcessed doc src e now) src v emit).doc.presence.received
        src = some { e with processedAt := some now } := by
  rw [setPresence_received]
  show lookupA (insertA doc.presence.received src _) src = _
  rw [lookupA_insertA]
  simp

/-- Case analysis of the reject-or-transform cascade: either some reject
condition fired (the entry is marked processed and the presence cleared),
or every guard passed and the transformed payload is installed. -/
theorem reconcile_cases (doc : Doc P Op) (src : String) (e : PresenceMsg P)
    (emit : Bool) (now : Nat) (V : Nat) :
    reconcileReceived doc src e emit now V =
        setPresence (markProcessed doc src e now) src none emit ∨
    (∃ pp t, e.p = some pp ∧ doc.type = some t ∧
      t.hasCreate = true ∧ t.hasTransform = true ∧
      (∀ o, doc.inflightOp = some o → o.op ≠ none) ∧
      (∀ o ∈ doc.pendingOps, o.op ≠ none) ∧
      0 ≤ receivedStartIndex doc e V ∧
      (∀ o ∈ receivedWindow (P := P) doc e V, o.op ≠ none) ∧
      reconcileReceived doc src e emit now V =
        setPresence (markProcessed doc src e now) src
          (receivedTransformResult doc e t pp V) emit) := by
  unfold reconcileReceived rejectClear
  cases hp : e.p with
  | none => left; rfl
  | some pp =>
    dsimp only
    cases ht : doc.type with
    | none => left; rfl
    | some t =>
      dsimp only
      by_cases hcap : (!t.hasCreate || !t.hasTransform) = true
      · rw [if_pos hcap]; left; rfl
      · rw [if_neg hcap]
        by_cases hio : (match doc.inflightOp with
            | some o => o.op.isNone | none => false) = true
        · rw [if_pos hio]; left; rfl
        · rw [if_neg hio]
          by_cases hpo : (doc.pendingOps.any fun o => o.op.isNone) = true
          · rw [if_pos hpo]; left; rfl
          · rw [if_neg hpo]
            by_cases hsi : receivedStartIndex doc e V < 0
            · rw [if_pos hsi]; left; rfl
            · rw [if_neg hsi]
              by_cases hsl : ((receivedWindow (P := P) doc e V).any
                  fun o => o.op.isNone) = true
              · rw [if_pos hsl]; left; rfl
              · rw [if_neg hsl]
                right
                refine ⟨pp, t, rfl, rfl, ?_, ?_, ?_, ?_, ?_, ?_, rfl⟩
                · revert hcap
                  cases t.hasCreate <;> cases t.hasTransform <;> simp
                · revert hcap
                  cases t.hasCreate <;> cases t.hasTransform <;> simp
                · intro o ho hnone
                  apply hio
                  rw [ho]
                  show o.op.isNone = true
                  rw [hnone]
                  rfl
                · intro o ho hnone
                  apply hpo
                  rw [List.any_eq_true]
                  exact ⟨o, ho, by rw [hnone]; rfl⟩
                · exact Int.not_lt.mp hsi
                · intro o ho hnone
                  apply hsl
                  rw [List.any_eq_true]
                  exact ⟨o, ho, by rw [hnone]; rfl⟩

/-! ## Lemmas about the clearing folds -/

theorem clearFoldStep_fst (acc : Doc P Op × List String) (src : String) :
    (clearFoldStep acc src).1 =
      { acc.1 with presence.current := eraseA acc.1.presence.current src } := by
  unfold clearFoldStep
  exact setPresence_none_doc acc.1 src false

theorem clearFold_all (L : List String) (doc : Doc P Op) (cs : List String)
    (h : ∀ kv ∈ doc.presence.current, kv.1 ∈ L) :
    (L.foldl clearFoldStep (doc, cs)).1 = { doc with presence.current := [] } := by
  induction L generalizing doc cs with
  | nil =>
    rw [List.foldl_nil]
    cases hc : doc.presence.current with
    | nil => rw [← hc]
    | cons kv l =>
      have := h kv (by rw [hc]; exact List.mem_cons_self _ _)
      simp at this
  | cons s L ih =>
    rw [List.foldl_cons]
    have hstep : clearFoldStep (doc, cs) s =
        ({ doc with presence.current := eraseA doc.presence.current s },
          if (setPresence doc s none false).changed then cs ++ [s] else cs) := by
      unfold clearFoldStep
      dsimp only
      rw [setPresence_none_doc]
    rw [hstep]
    apply ih
    intro kv hkv
    have hmem : kv ∈ doc.presence.current ∧ (kv.1 != s) = true := by
      have := List.mem_filter.mp hkv
      exact this
    rcases h kv hmem.1 with h1
    rcases List.mem_cons.mp h1 with h2 | h2
    · exact absurd h2 (by simpa using hmem.2)
    · exact h2

theorem emitPresenceE_no_callCb (l : List String) (b : Bool) :
    ((emitPresenceE (P := P) l b).all
      (fun ef => match ef.ev with | Event.callCb _ _ => false | _ => true)) = true := by
  unfold emitPresenceE
  split <;> rfl

/-! ## Claim theorems -/

/-- C10: for every inbound presence message (acks included), if the
document is not subscribed the handler returns immediately: no state field
changes and no continuation, error or notification is produced — in
particular an ack arriving after unsubscribe leaves `inflight` and
`inflightSeq` in place. -/
theorem c10_handlePresence_unsubscribed_noop (doc : Doc P Op) (err : Option SDBError)
    (pm : PresenceMsg P) (now : Nat) (h : doc.subscribed = false) :
    handlePresence doc err pm now = ⟨doc, []⟩ := by
  unfold handlePresence
  rw [h]
  rfl

/-- C10 witness: a concrete unsubscribed document is left untouched. -/
theorem c10_witness :
    ({ baseDoc with subscribed := false } : Doc Nat Nat).subscribed = false ∧
    handlePresence { baseDoc with subscribed := false } none sampleMsg 0 =
      ⟨{ baseDoc with subscribed := false }, []⟩ :=
  ⟨rfl, c10_handlePresence_unsubscribed_noop _ none sampleMsg 0 rfl⟩

/-- C4 counterexample: the claim quantifies over every data argument, but
submitting a null payload on an uncreated document (type absent) does not
produce a NotCreated error — the continuation resolves with no error. -/
theorem c4_counterexample :
    (({ baseDoc with type := none } : Doc Nat Nat)).type = none ∧
    submitPresence { baseDoc with type := none } (none : Option Nat) (some 7) =
      ⟨{ baseDoc with type := none },
        [⟨true, Event.callCb 7 none⟩, ⟨true, Event.scheduleFlush⟩]⟩ :=
  ⟨rfl, rfl⟩

/-- C4 (amended to non-null data): submitting a non-null payload before the
document is created resolves the continuation on the next tick (never on
the caller's stack) with NotCreated; with a type lacking create- or
transform-presence it resolves with UnsupportedType; in both cases the
state (in particular `current[""]`, `pending` and `inflight`) is entirely
unchanged. -/
theorem c4_submitPresence_errors (doc : Doc P Op) (d : P) (cb : Cb) :
    (doc.type = none →
      submitPresence doc (some d) (some cb) =
        ⟨doc, [⟨true, Event.callCb cb (some SDBError.notCreated)⟩]⟩) ∧
    (∀ t, doc.type = some t → (t.hasCreate && t.hasTransform) = false →
      submitPresence doc (some d) (some cb) =
        ⟨doc, [⟨true, Event.callCb cb (some SDBError.unsupportedType)⟩]⟩) := by
  constructor
  · intro h
    unfold submitPresence
    rw [h]
    rfl
  · intro t ht hcap
    unfold submitPresence
    rw [ht]
    dsimp only
    have hc : (!t.hasCreate || !t.hasTransform) = true := by
      revert hcap
      cases t.hasCreate <;> cases t.hasTransform <;> simp
    rw [if_pos hc]
    rfl

/-- C4 witness: both failure modes at concrete documents. -/
theorem c4_witness :
    (({ baseDoc with type := none } : Doc Nat Nat).type = none ∧
      submitPresence { baseDoc with type := none } (some 3) (some 9) =
        ⟨{ baseDoc with type := none },
          [⟨true, Event.callCb 9 (some SDBError.notCreated)⟩]⟩) ∧
    (({ baseDoc with type := some { sampleType with hasTransform := false } } :
        Doc Nat Nat).type = some { sampleType with hasTransform := false } ∧
      submitPresence { baseDoc with type := some { sampleType with hasTransform := false } }
          (some 3) (some 9) =
        ⟨{ baseDoc with type := some { sampleType with hasTransform := false } },
          [⟨true, Event.callCb 9 (some SDBError.unsupportedType)⟩]⟩) :=
  ⟨⟨rfl, (c4_submitPresence_errors _ 3 9).1 rfl⟩,
    ⟨rfl, (c4_submitPresence_errors _ 3 9).2 _ rfl rfl⟩⟩

/-- C5: `_hardRollbackPresence` clears `inflight`, `inflightSeq`,
`pending`, `cachedOps` and `received`, forces `requestReply`, removes every
entry of `current` (the local key `""` included), returns the inflight
batch (if any) followed by the pending batch (if any), and never invokes a
continuation itself. -/
theorem c5_hardRollback_resets (doc : Doc P Op) :
    (hardRollbackPresence doc).1 =
      doc.presence.inflight.toList ++ doc.presence.pending.toList ∧
    (hardRollbackPresence doc).2.doc.presence.inflight = none ∧
    (hardRollbackPresence doc).2.doc.presence.inflightSeq = 0 ∧
    (hardRollbackPresence doc).2.doc.presence.pending = none ∧
    (hardRollbackPresence doc).2.doc.presence.cachedOps = [] ∧
    (hardRollbackPresence doc).2.doc.presence.received = [] ∧
    (hardRollbackPresence doc).2.doc.presence.requestReply = true ∧
    (hardRollbackPresence doc).2.doc.presence.current = [] ∧
    ((hardRollbackPresence doc).2.effs.all
      (fun ef => match ef.ev with | Event.callCb _ _ => false | _ => true)) = true := by
  unfold hardRollbackPresence
  dsimp only
  rw [clearFold_all _ _ _ (fun kv hkv => List.mem_map_of_mem _ hkv)]
  refine ⟨rfl, rfl, rfl, rfl, rfl, rfl, rfl, rfl, emitPresenceE_no_callCb _ _⟩

theorem rejectClear_lookups (doc : Doc P Op) (src : String) (e : PresenceMsg P)
    (emit : Bool) (now : Nat) :
    lookupA (rejectClear doc src e emit now).doc.presence.received src =
      some { e with processedAt := some now } ∧
    lookupA (rejectClear doc src e emit now).doc.presence.current src = none :=
  ⟨rejectClear_received_lookup doc src e none emit now,
    setPresence_lookup_self_none (markProcessed doc src e now) src emit⟩

/-- Past the defer guards, every branch of the cascade stores the
processed mark back into `received[src]`. -/
theorem processReceived_marks (doc : Doc P Op) (src : String) (e : PresenceMsg P)
    (emit : Bool) (now : Nat) (V : Nat)
    (hsrc : ¬ src = "") (hrec : lookupA doc.presence.received src = some e)
    (hpa : e.processedAt = none) (hver : doc.version = some V)
    (hvlt : vlt V e.v = false) :
    lookupA (processReceivedPresence doc src emit now).doc.presence.received src =
      some { e with processedAt := some now } := by
  rw [processReceived_eq_reconcile doc src e emit now V hsrc hrec hpa hver hvlt]
  rcases reconcile_cases doc src e emit now V with hcase |
    ⟨pp, t, _, _, _, _, _, _, _, _, heq⟩
  · rw [hcase]
    exact rejectClear_received_lookup doc src e none emit now
  · rw [heq]
    exact rejectClear_received_lookup doc src e _ emit now

theorem flush_version (doc : Doc P Op) : (flush doc).doc.version = doc.version := by
  rcases flush_doc doc with h | h <;> rw [h]

/-- C1: per-source reconciliation returns "no change" without altering
`current` whenever the local document version is null or behind the
entry's version; and (past the defer guards) it marks the entry processed
and clears `current[src]` rather than transforming whenever the payload is
null, the type lacks create- or transform-presence, the inflight or a
pending local operation is structural, or the cached-op window is shorter
than the version gap. -/
theorem c1_processReceived_defer_reject (doc : Doc P Op) (src : String)
    (e : PresenceMsg P) (emit : Bool) (now : Nat)
    (hrec : lookupA doc.presence.received src = some e) :
    ((doc.version = none ∨ (∃ V w, doc.version = some V ∧ e.v = some w ∧ V < w)) →
      (processReceivedPresence doc src emit now).changed = false ∧
      (processReceivedPresence doc src emit now).doc.presence.current =
        doc.presence.current) ∧
    (∀ V, doc.version = some V → vlt V e.v = false → e.processedAt = none →
      src ≠ "" →
      (e.p = none ∨
        hasPresenceType doc = false ∨
        (∃ o, doc.inflightOp = some o ∧ o.op = none) ∨
        (∃ o ∈ doc.pendingOps, o.op = none) ∨
        (∃ w, e.v = some w ∧ doc.presence.cachedOps.length < V - w)) →
      lookupA (processReceivedPresence doc src emit now).doc.presence.received src =
        some { e with processedAt := some now } ∧
      lookupA (processReceivedPresence doc src emit now).doc.presence.current src =
        none) := by
  constructor
  · intro hv
    unfold processReceivedPresence
    by_cases hs : src = ""
    · rw [if_pos hs]
      exact ⟨rfl, rfl⟩
    · rw [if_neg hs, hrec]
      dsimp only
      cases hpa : e.processedAt with
      | some tt =>
        dsimp only
        split
        · exact ⟨rfl, rfl⟩
        · exact ⟨rfl, rfl⟩
      | none =>
        dsimp only
        rcases hv with hv | ⟨V, w, hV, hw, hlt⟩
        · rw [hv]
          exact ⟨rfl, rfl⟩
        · rw [hV]
          dsimp only
          rw [if_pos (show vlt V e.v = true by unfold vlt; rw [hw]; simpa using hlt)]
          exact ⟨rfl, rfl⟩
  · intro V hV hvlt hpa hs hD
    rw [processReceived_eq_reconcile doc src e emit now V hs hrec hpa hV hvlt]
    rcases reconcile_cases doc src e emit now V with hcase |
      ⟨pp, t, hp, ht, hc1, hc2, hio, hpo, hsi, hsl, heq⟩
    · rw [hcase]
      exact ⟨rejectClear_received_lookup doc src e none emit now,
        setPresence_lookup_self_none (markProcessed doc src e now) src emit⟩
    · exfalso
      rcases hD with hD | hD | hD | hD | hD
      · rw [hD] at hp
        cases hp
      · unfold hasPresenceType at hD
        rw [ht] at hD
        simp [hc1, hc2] at hD
      · rcases hD with ⟨o, ho, hon⟩
        exact (hio o ho) hon
      · rcases hD with ⟨o, ho, hon⟩
        exact (hpo o ho) hon
      · rcases hD with ⟨w, hw, hlen⟩
        have hwV : w ≤ V := by
          unfold vlt at hvlt
          rw [hw] at hvlt
          simpa using hvlt
        unfold receivedStartIndex at hsi
        rw [hw] at hsi
        simp only [Option.getD_some] at hsi
        omega

/-- C1 witness: a behind-version entry is deferred unchanged, and a
null-payload entry at the local version is marked processed and cleared. -/
theorem c1_witness :
    ((processReceivedPresence c1docA "B" true 0).changed = false ∧
      (processReceivedPresence c1docA "B" true 0).doc.presence.current =
        c1docA.presence.current) ∧
    (lookupA (processReceivedPresence c1docB "B" true 77).doc.presence.received "B" =
        some { c1msgB with processedAt := some 77 } ∧
      lookupA (processReceivedPresence c1docB "B" true 77).doc.presence.current "B" =
        none) :=
  ⟨(c1_processReceived_defer_reject c1docA "B" c1msgA true 0 (by decide)).1
      (Or.inr ⟨3, 5, rfl, rfl, by decide⟩),
    (c1_processReceived_defer_reject c1docB "B" c1msgB true 77 (by decide)).2 1 rfl
      (by decide) rfl (by decide) (Or.inl rfl)⟩

/-- C9: even when the payload, type capability, inflight/pending and
window-length checks all pass, a structural (null-op) cached operation
inside the bridging window makes reconciliation mark the entry processed
and clear the presence instead of transforming. -/
theorem c9_processReceived_window_structural (doc : Doc P Op) (src : String)
    (e : PresenceMsg P) (emit : Bool) (now : Nat) (V : Nat) (pp : P) (t : DocType P Op)
    (hsrc : src ≠ "") (hrec : lookupA doc.presence.received src = some e)
    (hpa : e.processedAt = none) (hver : doc.version = some V)
    (hvlt : vlt V e.v = false)
    (hp : e.p = some pp) (ht : doc.type = some t)
    (hc1 : t.hasCreate = true) (hc2 : t.hasTransform = true)
    (hio : (match doc.inflightOp with | some o => o.op.isNone | none => false) = false)
    (hpo : doc.pendingOps.any (fun o => o.op.isNone) = false)
    (hsi : 0 ≤ receivedStartIndex doc e V)
    (hsl : (receivedWindow (P := P) doc e V).any (fun o => o.op.isNone) = true) :
    lookupA (processReceivedPresence doc src emit now).doc.presence.received src =
      some { e with processedAt := some now } ∧
    lookupA (processReceivedPresence doc src emit now).doc.presence.current src =
      none := by
  rw [processReceived_eq_reconcile doc src e emit now V hsrc hrec hpa hver hvlt]
  unfold reconcileReceived
  rw [hp]
  dsimp only
  rw [ht]
  dsimp only
  rw [if_neg (show ¬ (!t.hasCreate || !t.hasTransform) = true by rw [hc1, hc2]; simp)]
  rw [if_neg (show ¬ _ = true by rw [hio]; simp)]
  rw [if_neg (show ¬ _ = true by rw [hpo]; simp)]
  rw [if_neg (Int.not_lt.mpr hsi)]
  rw [if_pos hsl]
  have h2 := rejectClear_lookups doc src e emit now
  rw [hp] at h2
  exact h2

/-- C9 witness: the concrete window holds a null-op cached operation; the
entry is marked processed and the presence for `"B"` cleared. -/
theorem c9_witness :
    lookupA (processReceivedPresence c9doc "B" true 5).doc.presence.received "B" =
      some { sampleMsg with processedAt := some 5 } ∧
    lookupA (processReceivedPresence c9doc "B" true 5).doc.presence.current "B" =
      none :=
  c9_processReceived_window_structural c9doc "B" sampleMsg true 5 1 5 sampleType
    (by decide) (by decide) rfl rfl (by decide) rfl rfl rfl rfl
    (by decide) (by decide) (by decide) (by decide)

/-- C2: when no defer or reject condition holds, the cached-op window is
exactly the last `V − w` cached operations, and the installed presence is
the entry's payload normalized by `createPresence`, folded left-to-right
through that window (ownership flag: the entry's src equals the op's src),
then through the inflight op (flag false) and each pending op in order
(flag false); the marked-processed entry is stored and the result is
installed via the set-presence primitive. -/
theorem c2_processReceived_transform (doc : Doc P Op) (src : String)
    (e : PresenceMsg P) (emit : Bool) (now : Nat) (V w : Nat) (pp : P) (t : DocType P Op)
    (hsrc : src ≠ "") (hrec : lookupA doc.presence.received src = some e)
    (hpa : e.processedAt = none) (hver : doc.version = some V)
    (hw : e.v = some w) (hwle : w ≤ V)
    (hp : e.p = some pp) (ht : doc.type = some t)
    (hc1 : t.hasCreate = true) (hc2 : t.hasTransform = true)
    (hio : (match doc.inflightOp with | some o => o.op.isNone | none => false) = false)
    (hpo : doc.pendingOps.any (fun o => o.op.isNone) = false)
    (hlen : V - w ≤ doc.presence.cachedOps.length)
    (hwin : (doc.presence.cachedOps.drop
        (doc.presence.cachedOps.length - (V - w))).any (fun o => o.op.isNone) = false) :
    receivedWindow (P := P) doc e V =
      doc.presence.cachedOps.drop (doc.presence.cachedOps.length - (V - w)) ∧
    (receivedWindow (P := P) doc e V).length = V - w ∧
    processReceivedPresence doc src emit now =
      setPresence (markProcessed doc src e now) src
        (doc.pendingOps.foldl (fun d o => t.transformPresence d o.op false)
          (match doc.inflightOp with
            | some o => t.transformPresence
                ((doc.presence.cachedOps.drop
                    (doc.presence.cachedOps.length - (V - w))).foldl
                  (fun d o => t.transformPresence d o.op (decide (o.src = some e.src)))
                  (t.createPresence pp)) o.op false
            | none =>
              (doc.presence.cachedOps.drop
                  (doc.presence.cachedOps.length - (V - w))).foldl
                (fun d o => t.transformPresence d o.op (decide (o.src = some e.src)))
                (t.createPresence pp)))
        emit := by
  have hidx : (receivedStartIndex doc e V).toNat =
      doc.presence.cachedOps.length - (V - w) := by
    unfold receivedStartIndex
    rw [hw]
    simp only [Option.getD_some]
    omega
  have hwindow : receivedWindow (P := P) doc e V =
      doc.presence.cachedOps.drop (doc.presence.cachedOps.length - (V - w)) := by
    unfold receivedWindow
    rw [hidx]
  have hvlt : vlt V e.v = false := by
    unfold vlt
    rw [hw]
    simpa using hwle
  refine ⟨hwindow, ?_, ?_⟩
  · rw [hwindow, List.length_drop]
    omega
  · rw [processReceived_eq_reconcile doc src e emit now V hsrc hrec hpa hver hvlt]
    unfold reconcileReceived
    rw [hp]
    dsimp only
    rw [ht]
    dsimp only
    rw [if_neg (show ¬ (!t.hasCreate || !t.hasTransform) = true by rw [hc1, hc2]; simp)]
    rw [if_neg (show ¬ _ = true by rw [hio]; simp)]
    rw [if_neg (show ¬ _ = true by rw [hpo]; simp)]
    rw [if_neg (show ¬ receivedStartIndex doc e V < 0 by
      unfold receivedStartIndex
      rw [hw]
      simp only [Option.getD_some]
      omega)]
    rw [if_neg (show ¬ ((receivedWindow (P := P) doc e V).any
        (fun o => o.op.isNone)) = true by rw [hwindow, hwin]; simp)]
    unfold receivedTransformResult
    rw [hwindow]

/-- C2 witness: at the concrete document the window is the single op with
source `"B"`; the payload 5 normalizes to 6, picks up 7 + 10 (owned) from
the window op, then 3 (inflight) and 4 (pending), and 30 is installed. -/
theorem c2_witness :
    (receivedWindow (P := Nat) c2doc c2msg 2 =
        c2doc.presence.cachedOps.drop (c2doc.presence.cachedOps.length - (2 - 1)) ∧
      (receivedWindow (P := Nat) c2doc c2msg 2).length = 2 - 1 ∧
      processReceivedPresence c2doc "B" true 9 =
        setPresence (markProcessed c2doc "B" c2msg 9) "B"
          (c2doc.pendingOps.foldl (fun d o => sampleType.transformPresence d o.op false)
            (match c2doc.inflightOp with
              | some o => sampleType.transformPresence
                  ((c2doc.presence.cachedOps.drop
                      (c2doc.presence.cachedOps.length - (2 - 1))).foldl
                    (fun d o => sampleType.transformPresence d o.op
                      (decide (o.src = some c2msg.src)))
                    (sampleType.createPresence 5)) o.op false
              | none =>
                (c2doc.presence.cachedOps.drop
                    (c2doc.presence.cachedOps.length - (2 - 1))).foldl
                  (fun d o => sampleType.transformPresence d o.op
                    (decide (o.src = some c2msg.src)))
                  (sampleType.createPresence 5)))
          true) ∧
    lookupA (processReceivedPresence c2doc "B" true 9).doc.presence.current "B" =
      some 30 :=
  ⟨c2_processReceived_transform c2doc "B" c2msg true 9 2 1 5 sampleType
      (by decide) (by decide) rfl rfl rfl (by decide) rfl rfl rfl rfl
      (by decide) (by decide) (by decide) (by decide),
    by decide⟩

/-- Whatever the document state, an accepted envelope ends up stored under
its source key (picking up a processed mark on some paths). -/
theorem acceptPresence_lookup (doc1 : Doc P Op) (pm : PresenceMsg P) (now : Nat)
    (hsrc : pm.src ≠ "") (hpa : pm.processedAt = none) :
    ∃ tt, lookupA (acceptPresence doc1 pm now).doc.presence.received pm.src =
      some { pm with processedAt := tt } := by
  unfold acceptPresence
  cases hv : pm.v with
  | none =>
    refine ⟨some now, ?_⟩
    dsimp only
    rw [setPresence_received]
    show lookupA (insertA doc1.presence.received pm.src _) pm.src = _
    rw [lookupA_insertA, if_pos rfl]
  | some pv =>
    dsimp only
    cases hv2 : doc1.version with
    | none =>
      refine ⟨pm.processedAt, ?_⟩
      dsimp only
      rw [lookupA_insertA, if_pos rfl, ← hv]
    | some V =>
      dsimp only
      by_cases hlt : V < pv
      · rw [if_pos (by simpa using hlt)]
        refine ⟨pm.processedAt, ?_⟩
        dsimp only
        rw [lookupA_insertA, if_pos rfl, ← hv]
      · rw [if_neg (by simpa using hlt)]
        refine ⟨some now, ?_⟩
        have hm := processReceived_marks
          { doc1 with
            version := some V
            presence.received := insertA doc1.presence.received pm.src pm }
          pm.src pm true now V hsrc (by rw [lookupA_insertA]; simp) hpa rfl
          (by unfold vlt; rw [hv]; simpa using hlt)
        rw [hv] at hm
        exact hm

/-- C3: an inbound envelope with a source id (no transport error,
subscribed document) is discarded — the received map is unchanged — when
an existing entry for its source has a strictly greater sequence or an
equal sequence while the envelope carries a non-null version; otherwise
the envelope replaces `received[src]` (acquiring its processed mark on
some paths).  In particular an equal-sequence envelope with a null version
is accepted. -/
theorem c3_handlePresence_ordering (doc : Doc P Op) (pm : PresenceMsg P) (now : Nat)
    (hsub : doc.subscribed = true) (hsrc : pm.src ≠ "")
    (hpa : pm.processedAt = none) :
    ((∃ old, lookupA doc.presence.received pm.src = some old ∧
        (pm.seq < old.seq ∨ (old.seq = pm.seq ∧ pm.v ≠ none))) →
      (handlePresence doc none pm now).doc.presence.received =
        doc.presence.received) ∧
    ((∀ old, lookupA doc.presence.received pm.src = some old →
        old.seq ≤ pm.seq ∧ (old.seq = pm.seq → pm.v = none)) →
      ∃ tt, lookupA (handlePresence doc none pm now).doc.presence.received pm.src =
        some { pm with processedAt := tt }) := by
  unfold handlePresence
  rw [if_neg (show ¬ (!doc.subscribed) = true by rw [hsub]; simp)]
  rw [if_neg hsrc]
  dsimp only
  by_cases hr : (pm.r && doc.presence.pending.isNone) = true
  · rw [if_pos hr]
    dsimp only
    rw [flush_received]
    dsimp only
    constructor
    · intro ⟨old, hold, hcond⟩
      rw [if_pos (show _ = true by
        rw [hold]
        rcases hcond with h | ⟨he, hvne⟩
        · simp [h]
        · simp [he, Option.isSome_iff_ne_none, hvne])]
      dsimp only
      rw [flush_received]
    · intro hacc
      rw [if_neg (show ¬ _ = true by
        cases hlook : lookupA doc.presence.received pm.src with
        | none => simp
        | some old =>
          obtain ⟨hle, himp⟩ := hacc old hlook
          simp only [Bool.or_eq_true, decide_eq_true_eq, Bool.and_eq_true]
          push_neg
          refine ⟨hle, fun he => ?_⟩
          rw [himp he]
          simp)]
      dsimp only
      exact acceptPresence_lookup _ pm now hsrc hpa
  · rw [if_neg hr]
    dsimp only
    constructor
    · intro ⟨old, hold, hcond⟩
      rw [if_pos (show _ = true by
        rw [hold]
        rcases hcond with h | ⟨he, hvne⟩
        · simp [h]
        · simp [he, Option.isSome_iff_ne_none, hvne])]
    · intro hacc
      rw [if_neg (show ¬ _ = true by
        cases hlook : lookupA doc.presence.received pm.src with
        | none => simp
        | some old =>
          obtain ⟨hle, himp⟩ := hacc old hlook
          simp only [Bool.or_eq_true, decide_eq_true_eq, Bool.and_eq_true]
          push_neg
          refine ⟨hle, fun he => ?_⟩
          rw [himp he]
          simp)]
      dsimp only
      exact acceptPresence_lookup _ pm now hsrc hpa

/-- C3 witness: against a stored sequence-5 entry, a sequence-3 envelope is
discarded while an equal-sequence null-version envelope is accepted. -/
theorem c3_witness :
    ((handlePresence c3doc none c3msgLow 8).doc.presence.received =
      c3doc.presence.received) ∧
    (∃ tt, lookupA
        (handlePresence c3doc none c3msgNull 8).doc.presence.received c3msgNull.src =
      some { c3msgNull with processedAt := tt }) :=
  ⟨(c3_handlePresence_ordering c3doc c3msgLow 8 rfl (by decide) rfl).1
      ⟨{ sampleMsg with seq := 5 }, by decide, Or.inl (by decide)⟩,
    (c3_handlePresence_ordering c3doc c3msgNull 8 rfl (by decide) rfl).2
      (fun old h => by
        rw [show lookupA c3doc.presence.received c3msgNull.src =
            some { sampleMsg with seq := 5 } from by decide] at h
        injection h with h2
        rw [← h2]
        exact ⟨by decide, fun _ => by decide⟩)⟩

/-! ## Value-level behaviour of the set-presence primitive (no compare) -/

theorem setPresence_lookup (doc : Doc P Op) (s : String) (v : Option P) (emit : Bool)
    (hcmp : doc.type.bind (fun t => t.comparePresence) = none) (s' : String) :
    lookupA (setPresence doc s v emit).doc.presence.current s' =
      if s' = s then v else lookupA doc.presence.current s' := by
  unfold setPresence
  cases v with
  | none =>
    cases h : lookupA doc.presence.current s with
    | none =>
      dsimp only
      by_cases hs : s' = s
      · rw [if_pos hs, hs, h]
      · rw [if_neg hs]
    | some w =>
      dsimp only
      rw [lookupA_eraseA]
  | some d =>
    dsimp only
    rw [hcmp]
    by_cases he : (lookupA doc.presence.current s == some d) = true
    · rw [if_pos (by rw [he]; rfl)]
      by_cases hs : s' = s
      · rw [if_pos hs, hs]
        exact beq_iff_eq.mp he
      · rw [if_neg hs]
    · rw [if_neg (by rw [Bool.eq_false_iff.mpr he]; simp)]
      rw [lookupA_insertA]

theorem setPresence_changed_val (doc : Doc P Op) (s : String) (v : Option P)
    (emit : Bool) (hcmp : doc.type.bind (fun t => t.comparePresence) = none) :
    (setPresence doc s v emit).changed =
      (match v with
        | none => (lookupA doc.presence.current s).isSome
        | some d => !((lookupA doc.presence.current s) == some d)) := by
  unfold setPresence
  cases v with
  | none => cases h : lookupA doc.presence.current s <;> rfl
  | some d =>
    dsimp only
    rw [hcmp]
    by_cases he : (lookupA doc.presence.current s == some d) = true
    · rw [if_pos (by rw [he]; rfl), he]
      rfl
    · rw [if_neg (by rw [Bool.eq_false_iff.mpr he]; simp),
        Bool.eq_false_iff.mpr he]
      rfl

/-- `_transformPresence` as a set-presence call on the per-source value. -/
theorem transformPresenceOne_eq (doc : Doc P Op) (src : String) (op : WireOp Op)
    (t : DocType P Op) (ht : doc.type = some t) :
    transformPresenceOne doc src op =
      setPresence doc src (tfVal t op src (lookupA doc.presence.current src)) false := by
  unfold transformPresenceOne tfVal
  cases op.op with
  | some o =>
    dsimp only
    unfold docTransform
    rw [ht]
  | none => rfl

/-- Characterization of `_transformAllPresence`'s loop over a distinct key
list: each listed source ends at its transformed value and the changed
list collects exactly the sources whose stored value changed. -/
theorem transformFold_char (op : WireOp Op) (t : DocType P Op) (L : List String)
    (doc : Doc P Op) (cs : List String)
    (ht : doc.type = some t) (hcmp : t.comparePresence = none) (hnd : L.Nodup) :
    (∀ src, lookupA (L.foldl (transformFoldStep op) (doc, cs)).1.presence.current src =
        (if src ∈ L then tfVal t op src (lookupA doc.presence.current src)
         else lookupA doc.presence.current src)) ∧
    (L.foldl (transformFoldStep op) (doc, cs)).2 =
      cs ++ L.filter (fun src => tfChanged t op src (lookupA doc.presence.current src)) := by
  induction L generalizing doc cs with
  | nil =>
    constructor
    · intro src
      simp
    · simp
  | cons s L ih =>
    obtain ⟨hsL, hndL⟩ := List.nodup_cons.mp hnd
    have hbind : doc.type.bind (fun u => u.comparePresence) = none := by
      rw [ht]
      simpa using hcmp
    have hstep : transformFoldStep op (doc, cs) s =
        ((setPresence doc s (tfVal t op s (lookupA doc.presence.current s)) false).doc,
          if tfChanged t op s (lookupA doc.presence.current s) then cs ++ [s] else cs) := by
      unfold transformFoldStep
      dsimp only
      rw [transformPresenceOne_eq doc s op t ht,
        setPresence_changed_val doc s _ false hbind]
      rfl
    obtain ⟨c1, hc1⟩ :=
      setPresence_shape doc s (tfVal t op s (lookupA doc.presence.current s)) false
    have ht1 : (setPresence doc s (tfVal t op s (lookupA doc.presence.current s))
        false).doc.type = some t := by rw [hc1]; exact ht
    have hlk : ∀ s', lookupA (setPresence doc s
        (tfVal t op s (lookupA doc.presence.current s)) false).doc.presence.current s' =
        if s' = s then tfVal t op s (lookupA doc.presence.current s)
        else lookupA doc.presence.current s' :=
      fun s' => setPresence_lookup doc s _ false hbind s'
    rw [List.foldl_cons, hstep]
    obtain ⟨ihl, ihc⟩ := ih _ _ ht1 hndL
    constructor
    · intro src
      rw [ihl src]
      by_cases hmem : src ∈ L
      · have hne : ¬ src = s := fun he => hsL (he ▸ hmem)
        rw [if_pos hmem, if_pos (List.mem_cons_of_mem _ hmem), hlk src, if_neg hne]
      · rw [if_neg hmem, hlk src]
        by_cases hs : src = s
        · rw [if_pos hs, if_pos (by rw [hs]; exact List.mem_cons_self _ _)]
          rw [hs]
        · rw [if_neg hs, if_neg (by
            intro hin
            rcases List.mem_cons.mp hin with h | h
            · exact hs h
            · exact hmem h)]
    · rw [ihc]
      have hfeq : L.filter (fun src => tfChanged t op src
            (lookupA (setPresence doc s
              (tfVal t op s (lookupA doc.presence.current s)) false).doc.presence.current
              src)) =
          L.filter (fun src => tfChanged t op src (lookupA doc.presence.current src)) := by
        apply List.filter_congr
        intro src hmem
        have hne : ¬ src = s := fun he => hsL (he ▸ hmem)
        rw [hlk src, if_neg hne]
      rw [hfeq, List.filter_cons]
      by_cases hch : tfChanged t op s (lookupA doc.presence.current s) = true
      · rw [if_pos hch, hch]
        simp
      · rw [if_neg hch, Bool.eq_false_iff.mpr hch]
        simp

/-- C6 counterexample: `_transformAllPresence` does not exclude the local
source `""` — the local presence (5) is transformed through the applied
operation too (to 16 under the sample type), so the claim's exclusion of
`""` fails on the code. -/
theorem c6_counterexample :
    lookupA c6doc.presence.current "" = some 5 ∧
    lookupA (transformAllPresence c6doc c6op).doc.presence.current "" = some 16 :=
  ⟨by decide, by decide⟩

/-- C6 (amended): when a local operation is applied, EVERY source in
`current` — the local source `""` included — has its payload transformed
through the operation with ownership flag `src === (op.src || '')`, a null
(structural) op clearing each source's presence; sources not in `current`
are untouched, and one batched change notification is emitted for exactly
the sources whose stored value changed (stated for a type with no
compare-presence capability and distinct keys). -/
theorem c6_transformAllPresence_amended (doc : Doc P Op) (op : WireOp Op)
    (t : DocType P Op) (ht : doc.type = some t) (hcmp : t.comparePresence = none)
    (hnd : (doc.presence.current.map (fun kv => kv.1)).Nodup) :
    (∀ src ∈ doc.presence.current.map (fun kv => kv.1),
      lookupA (transformAllPresence doc op).doc.presence.current src =
        tfVal t op src (lookupA doc.presence.current src)) ∧
    (∀ src, src ∉ doc.presence.current.map (fun kv => kv.1) →
      lookupA (transformAllPresence doc op).doc.presence.current src =
        lookupA doc.presence.current src) ∧
    (transformAllPresence doc op).effs =
      emitPresenceE ((doc.presence.current.map (fun kv => kv.1)).filter
        (fun src => tfChanged t op src (lookupA doc.presence.current src))) false := by
  obtain ⟨hl, hc⟩ := transformFold_char op t
    (doc.presence.current.map (fun kv => kv.1)) doc [] ht hcmp hnd
  unfold transformAllPresence
  dsimp only
  refine ⟨fun src hmem => ?_, fun src hmem => ?_, ?_⟩
  · rw [hl src, if_pos hmem]
  · rw [hl src, if_neg hmem]
  · rw [hc]
    rfl

/-- C6 witness: at the concrete two-entry document, the remote source
`"B"` picks up the op (owned: 7 + 1 + 10 = 18), the local source `""` is
transformed as well (5 + 1 = 6), and one batched notification lists both
sources. -/
theorem c6_witness :
    (lookupA (transformAllPresence c6docW c6opW).doc.presence.current "B" =
        tfVal sampleType c6opW "B" (lookupA c6docW.presence.current "B") ∧
      lookupA (transformAllPresence c6docW c6opW).doc.presence.current "" =
        tfVal sampleType c6opW "" (lookupA c6docW.presence.current "")) ∧
    lookupA (transformAllPresence c6docW c6opW).doc.presence.current "C" =
      lookupA c6docW.presence.current "C" ∧
    (transformAllPresence c6docW c6opW).effs =
      emitPresenceE ((c6docW.presence.current.map (fun kv => kv.1)).filter
        (fun src => tfChanged sampleType c6opW src
          (lookupA c6docW.presence.current src))) false :=
  ⟨⟨(c6_transformAllPresence_amended c6docW c6opW sampleType rfl rfl (by decide)).1
        "B" (by decide),
      (c6_transformAllPresence_amended c6docW c6opW sampleType rfl rfl (by decide)).1
        "" (by decide)⟩,
    (c6_transformAllPresence_amended c6docW c6opW sampleType rfl rfl (by decide)).2.1
      "C" (by decide),
    (c6_transformAllPresence_amended c6docW c6opW sampleType rfl rfl (by decide)).2.2⟩

/-! ## The op cache -/

theorem dropWhile_sorted_bound (T : Nat) (l : List (WireOp Op))
    (hsort : l.Pairwise (fun a b => a.time ≤ b.time)) :
    ∀ c ∈ l.dropWhile (fun c => decide (c.time < T)), T ≤ c.time := by
  induction l with
  | nil =>
    intro c hc
    simp [List.dropWhile] at hc
  | cons a l ih =>
    intro c hc
    rw [List.dropWhile_cons] at hc
    by_cases ha : a.time < T
    · rw [if_pos (by simpa using ha)] at hc
      exact ih (List.pairwise_cons.mp hsort).2 c hc
    · rw [if_neg (by simpa using ha)] at hc
      rcases List.mem_cons.mp hc with h | h
      · rw [h]
        omega
      · have := (List.pairwise_cons.mp hsort).1 c h
        omega

/-- C7 counterexample: the claim quantifies over every cached-ops state
and every operation; it fails both for an op whose own timestamp is
already older than `now − cachedOpsTimeout` (the stale op itself is
appended) and for an unsorted cache (the pruning loop stops at the first
fresh entry, so a stale entry behind it survives). -/
theorem c7_counterexample :
    ((cacheOp baseDoc c7op 100000).presence.cachedOps = [c7op] ∧
      c7op.time < 100000 - baseDoc.presence.cachedOpsTimeout) ∧
    ((cacheOp c7doc2 c7op2 100000).presence.cachedOps =
        [⟨some 1, none, 100000⟩, ⟨some 2, none, 0⟩, c7op2] ∧
      (⟨some 2, none, 0⟩ : WireOp Nat).time <
        100000 - c7doc2.presence.cachedOpsTimeout) :=
  ⟨⟨by decide, by decide⟩, ⟨by decide, by decide⟩⟩

/-- C7 (amended): provided the op cache is sorted by application time
ascending and the inserted op's timestamp is at least `now −
cachedOpsTimeout`, after `_cacheOp` no entry is older than `now −
cachedOpsTimeout` and the new op is appended at the end. -/
theorem c7_cacheOp_amended (doc : Doc P Op) (op : WireOp Op) (now : Nat)
    (hsort : doc.presence.cachedOps.Pairwise (fun a b => a.time ≤ b.time))
    (hop : now - doc.presence.cachedOpsTimeout ≤ op.time) :
    (∀ c ∈ (cacheOp doc op now).presence.cachedOps,
      now - doc.presence.cachedOpsTimeout ≤ c.time) ∧
    (cacheOp doc op now).presence.cachedOps.getLast? = some op := by
  unfold cacheOp
  dsimp only
  constructor
  · intro c hc
    rcases List.mem_append.mp hc with h | h
    · exact dropWhile_sorted_bound _ _ hsort c h
    · rw [List.mem_singleton.mp h]
      exact hop
  · exact List.getLast?_concat _

/-- C7 witness: at a sorted two-entry cache with a fresh op, every
surviving entry is fresh and the op sits at the end. -/
theorem c7_witness :
    (cacheOp c7docW c7op2 100000).presence.cachedOps.getLast? = some c7op2 ∧
    100000 - c7docW.presence.cachedOpsTimeout ≤
      (⟨some 2, none, 90000⟩ : WireOp Nat).time :=
  ⟨(c7_cacheOp_amended c7docW c7op2 100000 (by decide) (by decide)).2,
    (c7_cacheOp_amended c7docW c7op2 100000 (by decide) (by decide)).1
      ⟨some 2, none, 90000⟩ (by decide)⟩

/-! ## The inflight-sequence invariant -/

theorem foldl_pres {σ α β : Type _} (f : σ → α → σ) (g : σ → β)
    (hf : ∀ s a, g (f s a) = g s) (L : List α) (s : σ) :
    g (L.foldl f s) = g s := by
  induction L generalizing s with
  | nil => rfl
  | cons a L ih => rw [List.foldl_cons, ih, hf]

theorem processReceived_inflight (doc : Doc P Op) (src : String) (emit : Bool)
    (now : Nat) :
    (processReceivedPresence doc src emit now).doc.presence.inflight =
      doc.presence.inflight ∧
    (processReceivedPresence doc src emit now).doc.presence.inflightSeq =
      doc.presence.inflightSeq := by
  obtain ⟨c, r, h⟩ := processReceived_shape doc src emit now
  rw [h]
  exact ⟨rfl, rfl⟩

theorem acceptPresence_inflight (doc1 : Doc P Op) (pm : PresenceMsg P) (now : Nat) :
    (acceptPresence doc1 pm now).doc.presence.inflight = doc1.presence.inflight ∧
    (acceptPresence doc1 pm now).doc.presence.inflightSeq =
      doc1.presence.inflightSeq := by
  unfold acceptPresence
  cases pm.v with
  | none =>
    dsimp only
    rw [setPresence_inflight, setPresence_inflightSeq]
    exact ⟨rfl, rfl⟩
  | some pv =>
    dsimp only
    cases doc1.version with
    | none => exact ⟨rfl, rfl⟩
    | some V =>
      dsimp only
      split
      · exact ⟨rfl, rfl⟩
      · exact ⟨(processReceived_inflight _ pm.src true now).1,
          (processReceived_inflight _ pm.src true now).2⟩

theorem submitCore_inflight (doc : Doc P Op) (data : Option P) (cb : Option Cb) :
    (submitCore doc data cb).doc.presence.inflight = doc.presence.inflight ∧
    (submitCore doc data cb).doc.presence.inflightSeq = doc.presence.inflightSeq := by
  unfold submitCore
  obtain ⟨c, hc⟩ := setPresence_shape doc "" data true
  dsimp only
  rw [hc]
  split
  · exact ⟨rfl, rfl⟩
  · split
    · exact ⟨rfl, rfl⟩
    · exact ⟨rfl, rfl⟩

theorem flush_seqInv (doc : Doc P Op) (h : doc.connSeq ≠ 0)
    (hi : seqInv doc.presence) : seqInv (flush doc).doc.presence := by
  unfold flush
  split
  · rename_i hcond
    simp only [Bool.and_eq_true] at hcond
    constructor
    · intro h0
      exact absurd h0 h
    · intro hn
      exfalso
      have hp : doc.presence.pending.isSome = true := hcond.1.2
      have hn' : doc.presence.pending = none := hn
      rw [hn'] at hp
      cases hp
  · exact hi

theorem guardedClearFold_seqInv (L : List String) (d : Doc P Op) (cs : List String)
    (hd : seqInv d.presence) :
    seqInv (L.foldl (fun acc src => if src ≠ "" then clearFoldStep acc src else acc)
      (d, cs)).1.presence := by
  have hstep : ∀ (s : Doc P Op × List String) (a : String),
      ((if a ≠ "" then clearFoldStep s a else s).1.presence.inflight,
        (if a ≠ "" then clearFoldStep s a else s).1.presence.inflightSeq) =
      (s.1.presence.inflight, s.1.presence.inflightSeq) := by
    intro s a
    by_cases ha : a ≠ ""
    · rw [if_pos ha, clearFoldStep_fst]
    · rw [if_neg ha]
  have h1 := foldl_pres (fun acc src => if src ≠ "" then clearFoldStep acc src else acc)
    (fun acc => (acc.1.presence.inflight, acc.1.presence.inflightSeq)) hstep L (d, cs)
  unfold seqInv at hd ⊢
  rw [show (L.foldl (fun acc src => if src ≠ "" then clearFoldStep acc src else acc)
      (d, cs)).1.presence.inflightSeq = d.presence.inflightSeq from
    congrArg Prod.snd h1]
  rw [show (L.foldl (fun acc src => if src ≠ "" then clearFoldStep acc src else acc)
      (d, cs)).1.presence.inflight = d.presence.inflight from
    congrArg Prod.fst h1]
  exact hd

/-- C8: `inflightSeq = 0 ⇔ inflight absent` holds in the initial state
and is preserved by submit, flush, ack/remote handling, per-source and
batch reconciliation, local transform, pause, op caching, destroy and
hard rollback, given a nonzero transport sequence counter at flush time. -/
theorem c8_seqInv_preserved :
    seqInv (initializePresence P Op) ∧
    (∀ (doc : Doc P Op) (data : Option P) (cb : Option Cb), seqInv doc.presence →
      seqInv (submitPresence doc data cb).doc.presence) ∧
    (∀ doc : Doc P Op, doc.connSeq ≠ 0 → seqInv doc.presence →
      seqInv (flush doc).doc.presence) ∧
    (∀ (doc : Doc P Op) (err : Option SDBError) (pm : PresenceMsg P) (now : Nat),
      doc.connSeq ≠ 0 → seqInv doc.presence →
      seqInv (handlePresence doc err pm now).doc.presence) ∧
    (∀ (doc : Doc P Op) (src : String) (emit : Bool) (now : Nat),
      seqInv doc.presence →
      seqInv (processReceivedPresence doc src emit now).doc.presence) ∧
    (∀ (doc : Doc P Op) (now : Nat), seqInv doc.presence →
      seqInv (processAllReceivedPresence doc now).doc.presence) ∧
    (∀ (doc : Doc P Op) (op : WireOp Op), seqInv doc.presence →
      seqInv (transformAllPresence doc op).doc.presence) ∧
    (∀ doc : Doc P Op, seqInv doc.presence → seqInv (pause doc).doc.presence) ∧
    (∀ (doc : Doc P Op) (op : WireOp Op) (now : Nat), seqInv doc.presence →
      seqInv (cacheOp doc op now).presence) ∧
    (∀ doc : Doc P Op, seqInv doc.presence → seqInv (destroy doc).presence) ∧
    (∀ doc : Doc P Op, seqInv (hardRollbackPresence doc).2.doc.presence) := by
  refine ⟨?_, ?_, ?_, ?_, ?_, ?_, ?_, ?_, ?_, ?_, ?_⟩
  · exact ⟨fun _ => rfl, fun _ => rfl⟩
  · intro doc data cb hi
    unfold submitPresence
    cases data with
    | none =>
      obtain ⟨h1, h2⟩ := submitCore_inflight doc none cb
      unfold seqInv at hi ⊢
      rw [h1, h2]
      exact hi
    | some d =>
      cases doc.type with
      | none => exact hi
      | some t =>
        dsimp only
        split
        · exact hi
        · obtain ⟨h1, h2⟩ := submitCore_inflight doc (t.createPresence d) cb
          unfold seqInv at hi ⊢
          rw [h1, h2]
          exact hi
  · exact fun doc => flush_seqInv doc
  · intro doc err pm now hcs hi
    unfold handlePresence
    by_cases hsub : (!doc.subscribed) = true
    case pos =>
      rw [if_pos hsub]
      exact hi
    case neg =>
      rw [if_neg hsub]
      by_cases hack : pm.src = ""
      · rw [if_pos hack]
        by_cases hseq : doc.presence.inflightSeq = pm.seq
        · rw [if_pos hseq]
          dsimp only
          exact flush_seqInv _ hcs ⟨fun _ => rfl, fun _ => rfl⟩
        · rw [if_neg hseq]
          exact hi
      · rw [if_neg hack]
        cases err with
        | some e => exact hi
        | none =>
          dsimp only
          by_cases hr : (pm.r && doc.presence.pending.isNone) = true
          · rw [if_pos hr]
            dsimp only
            have h1 : seqInv (flush { doc with
                presence.pending := some ([] : List Cb) }).doc.presence :=
              flush_seqInv _ hcs hi
            split
            · exact h1
            · dsimp only
              obtain ⟨ha1, ha2⟩ := acceptPresence_inflight
                (flush { doc with presence.pending := some ([] : List Cb) }).doc pm now
              unfold seqInv at h1 ⊢
              rw [ha1, ha2]
              exact h1
          · rw [if_neg hr]
            dsimp only
            split
            · exact hi
            · dsimp only
              obtain ⟨ha1, ha2⟩ := acceptPresence_inflight doc pm now
              unfold seqInv at hi ⊢
              rw [ha1, ha2]
              exact hi
  · intro doc src emit now hi
    obtain ⟨h1, h2⟩ := processReceived_inflight doc src emit now
    unfold seqInv at hi ⊢
    rw [h1, h2]
    exact hi
  · intro doc now hi
    unfold processAllReceivedPresence
    dsimp only
    have hstep : ∀ (s : Doc P Op × List String × List (Eff P)) (a : String),
        ((processFoldStep now s a).1.presence.inflight,
          (processFoldStep now s a).1.presence.inflightSeq) =
        (s.1.presence.inflight, s.1.presence.inflightSeq) := by
      intro s a
      unfold processFoldStep
      dsimp only
      obtain ⟨h1, h2⟩ := processReceived_inflight s.1 a false now
      rw [h1, h2]
    have h1 := foldl_pres (processFoldStep now)
      (fun acc => (acc.1.presence.inflight, acc.1.presence.inflightSeq)) hstep
      (doc.presence.received.map (fun kv => kv.1)) (doc, [], [])
    unfold seqInv at hi ⊢
    rw [show ((doc.presence.received.map (fun kv => kv.1)).foldl (processFoldStep now)
        (doc, [], [])).1.presence.inflightSeq = doc.presence.inflightSeq from
      congrArg Prod.snd h1]
    rw [show ((doc.presence.received.map (fun kv => kv.1)).foldl (processFoldStep now)
        (doc, [], [])).1.presence.inflight = doc.presence.inflight from
      congrArg Prod.fst h1]
    exact hi
  · intro doc op hi
    unfold transformAllPresence
    dsimp only
    have hstep : ∀ (s : Doc P Op × List String) (a : String),
        ((transformFoldStep op s a).1.presence.inflight,
          (transformFoldStep op s a).1.presence.inflightSeq) =
        (s.1.presence.inflight, s.1.presence.inflightSeq) := by
      intro s a
      unfold transformFoldStep transformPresenceOne
      dsimp only
      obtain ⟨c, hc⟩ := setPresence_shape s.1 a
        (match op.op with
          | some _ => docTransform s.1 (lookupA s.1.presence.current a) op.op
              (decide (a = op.src.getD ""))
          | none => none) false
      rw [hc]
    have h1 := foldl_pres (transformFoldStep op)
      (fun acc => (acc.1.presence.inflight, acc.1.presence.inflightSeq)) hstep
      (doc.presence.current.map (fun kv => kv.1)) (doc, [])
    unfold seqInv at hi ⊢
    rw [show ((doc.presence.current.map (fun kv => kv.1)).foldl (transformFoldStep op)
        (doc, [])).1.presence.inflightSeq = doc.presence.inflightSeq from
      congrArg Prod.snd h1]
    rw [show ((doc.presence.current.map (fun kv => kv.1)).foldl (transformFoldStep op)
        (doc, [])).1.presence.inflight = doc.presence.inflight from
      congrArg Prod.fst h1]
    exact hi
  · intro doc hi
    unfold pause
    dsimp only
    split
    · exact guardedClearFold_seqInv _ _ _ ⟨fun _ => rfl, fun _ => rfl⟩
    · split
      · exact guardedClearFold_seqInv _ _ _ hi
      · exact guardedClearFold_seqInv _ _ _ hi
  · intro doc op now hi
    exact hi
  · intro doc hi
    exact hi
  · intro doc
    unfold hardRollbackPresence
    dsimp only
    rw [clearFold_all _ _ _ (fun kv hkv => List.mem_map_of_mem _ hkv)]
    exact ⟨fun _ => rfl, fun _ => rfl⟩

/-- C8 witness: the invariant holds on the fresh state and is carried
through a firing flush and a submission at concrete documents. -/
theorem c8_witness :
    seqInv (initializePresence Nat Nat) ∧
    seqInv (flush c8doc).doc.presence ∧
    seqInv (submitPresence baseDoc (some 1) (some 2)).doc.presence :=
  ⟨c8_seqInv_preserved.1,
    c8_seqInv_preserved.2.2.1 c8doc (by decide) ⟨fun _ => rfl, fun _ => rfl⟩,
    c8_seqInv_preserved.2.1 baseDoc (some 1) (some 2) ⟨fun _ => rfl, fun _ => rfl⟩⟩

end SDB
